import Mathlib

/-!
Verification of the dispatch layer generated by the `#[machine]` attribute
macro in `crates/carol_guest_derive/src/machine.rs`.

The macro, given an impl block of a machine type, emits:

* one argument-container struct per `#[activate]` method, fields in
  parameter declaration order (`struct_fields`, machine.rs lines 103-149);
* a closed tagged union `Activate` with one tuple variant per operation
  (`call_interface_enum`, lines 178-199, 368);
* a binary dispatcher `activate(__params, __input)` that bincode-decodes
  the state and the Activation and runs the matching method
  (lines 456-463 together with `match_arms`, lines 203-254);
* an HTTP bridge `handle_http` that matches `(request.method, path)`
  against the routed operations in declaration order, then a generated
  `(Get, "/")` documentation arm, then a catch-all `404` arm
  (lines 280-365, 392-415, 465-476).

The embedding below models the generated code over an arbitrary state type
`S` and a universal value type `V`.  The external collaborators — the
bincode leaf codec for field and state values, serde_json / serde_urlencoded
argument decoding, and the host-supplied `Cap::self_activate` primitive —
are parameters of the model; the structure the macro itself fixes (variant
tag then fields in declaration order, match-arm order, status codes and
bodies) is written out from the source.  Byte strings are modelled as
`List Nat` token streams; the enum variant tag is one token, matching
bincode's varint tag for unions with fewer than 251 variants.

Panics (`expect` / `unreachable!`) are modelled as `Option.none` results;
the generated functions have no error channel, so `none` is the aborted
call.  Dispatch is instrumented with a trace of method invocations
(respectively of `self_activate` calls on the HTTP path) so that claims
about "exactly one invocation" and "no invocation" are statable.
-/

/-- Byte strings on the wire, as token streams. -/
abbrev Bytes := List Nat

/-- Capability marker values; `activate` constructs `ActivateCap` and
`handle_http` constructs `HttpHandlerCap` (machine.rs lines 459, 468). -/
inductive CapToken : Type
  | activateCap : CapToken
  | httpHandlerCap : CapToken
deriving DecidableEq, Repr

/-- HTTP verbs supported by the route options (`HttpMethod` in the
macro crate: only `Get` and `Post` exist). -/
inductive Verb : Type
  | get : Verb
  | post : Verb
deriving DecidableEq, Repr

/-- A resolved HTTP route attached to an operation: the verb and the
literal path the generated match arm tests against (machine.rs
lines 256-280; a missing explicit path defaults to
`/activate/method_name` before this point). -/
structure Route : Type where
  verb : Verb
  path : String
deriving DecidableEq, Repr

/-- One `#[activate]` operation of the machine, as the macro sees it after
schema extraction: its name, parameter names in declaration order, the
method body (given the decoded state, the capability reference and the
container's field values in declaration order), whether the signature
declares a return type, and its optional HTTP route. -/
structure OpSpec (S V : Type) : Type where
  name : String
  params : List String
  impl : S → CapToken → List V → V
  hasRet : Bool
  http : Option Route

/-- The machine model: the ordered operation list plus the external
codec and marshalling collaborators the generated code calls into.
`decState`/`decVal` mirror `bincode::decode_from_slice`, which returns the
value and the unread remainder and never rejects trailing bytes;
`jsonDecArgs i` mirrors `serde_json::from_slice` into operation `i`'s
argument container (error already formatted to a string, machine.rs line
286), `formDecArgs i` mirrors `serde_urlencoded::from_str` (line 291),
`jsonEncVal` mirrors `serde_json::to_vec_pretty` and `jsonDecVal` the
corresponding structured decoding of a response body.  `docPage` is the
pre-rendered welcome page literal (lines 383-390). -/
structure Machine (S V : Type) : Type where
  encState : S → Bytes
  decState : Bytes → Option (S × Bytes)
  encVal : V → Bytes
  decVal : Bytes → Option (V × Bytes)
  ops : List (OpSpec S V)
  jsonDecArgs : Nat → Bytes → Except String (List V)
  formDecArgs : Nat → String → Except String (List V)
  jsonEncVal : V → Bytes
  jsonDecVal : Bytes → Option V
  docPage : Bytes

/-- An Activation value: the variant tag (the operation's declaration
index) and the wrapped container's field values in declaration order. -/
structure Activation (V : Type) : Type where
  idx : Nat
  args : List V
deriving DecidableEq, Repr

/-- Encoding of an argument container: the fields' encodings concatenated
in declaration order (the containers derive `bincode::Encode` with fields
in the order the parameters were declared, machine.rs lines 147, 164-174). -/
def encFields {S V : Type} (m : Machine S V) : List V → Bytes
  | [] => []
  | v :: rest => m.encVal v ++ encFields m rest

/-- Encoding of an Activation: the variant tag followed by the container
(the enum derives `bincode::Encode`; each variant wraps exactly its
operation's container, machine.rs lines 178-199). -/
def encodeActivation {S V : Type} (m : Machine S V) (a : Activation V) : Bytes :=
  a.idx :: encFields m a.args

/-- Decoding of `n` container fields in declaration order. -/
def decodeFields {S V : Type} (m : Machine S V) : Nat → Bytes → Option (List V × Bytes)
  | 0, bs => some ([], bs)
  | Nat.succ n, bs =>
    match m.decVal bs with
    | none => none
    | some (v, rest) =>
      match decodeFields m n rest with
      | none => none
      | some (vs, rem) => some (v :: vs, rem)

/-- Decoding of an Activation: read the variant tag, reject tags outside
the closed union, then decode that operation's container fields. -/
def decodeActivation {S V : Type} (m : Machine S V) (bs : Bytes) :
    Option (Activation V × Bytes) :=
  match bs with
  | [] => none
  | i :: rest =>
    match m.ops.get? i with
    | none => none
    | some op =>
      match decodeFields m op.params.length rest with
      | none => none
      | some (args, rem) => some (⟨i, args⟩, rem)

/-- One recorded method invocation: the operation's name, the capability
value passed as the first argument, and the container fields passed after
it in declaration order (machine.rs lines 203-222: the generated call is
`machine.method(&__ctx, field1, field2, ...)`). -/
structure CallEvent (V : Type) : Type where
  opName : String
  cap : CapToken
  args : List V
deriving DecidableEq, Repr

/-- The generated binary dispatcher `activate(__params, __input)`
(machine.rs lines 456-463): decode the state, decode the Activation, run
the single matching arm, and bincode-encode the method's result (a method
without a return type returns `()`, which bincode encodes to zero bytes).
`none` models the `expect` panic on a decode failure; the second component
is the trace of method invocations performed. -/
def activate {S V : Type} (m : Machine S V) (stateBytes inputBytes : Bytes) :
    Option Bytes × List (CallEvent V) :=
  match m.decState stateBytes with
  | none => (none, [])
  | some (st, _) =>
    match decodeActivation m inputBytes with
    | none => (none, [])
    | some (a, _) =>
      match m.ops.get? a.idx with
      | none => (none, [])
      | some op =>
        (some (if op.hasRet then m.encVal (op.impl st CapToken.activateCap a.args) else []),
         [⟨op.name, CapToken.activateCap, a.args⟩])

/-- An incoming HTTP request as `handle_http` consumes it: the method, the
URI's path, the URI's query string (`""` when absent, machine.rs line 472)
and the raw body bytes.  URI splitting itself is done by the external
`http` crate and is taken as given. -/
structure HttpRequest : Type where
  method : Verb
  path : String
  query : String
  body : Bytes
deriving DecidableEq, Repr

/-- An HTTP response as the generated arms build it. -/
structure HttpResponse : Type where
  status : Nat
  headers : List (String × String)
  body : Bytes
deriving DecidableEq, Repr

/-- Exact structural match of one route against the request's verb and
path, mirroring the literal pattern `(Method::Verb, "path")` of a
generated match arm (machine.rs line 280). -/
def routeHit (r : Route) (v : Verb) (p : String) : Prop :=
  r.verb = v ∧ r.path = p

instance routeHitDec (r : Route) (v : Verb) (p : String) : Decidable (routeHit r v p) :=
  inferInstanceAs (Decidable (r.verb = v ∧ r.path = p))

/-- The ordered list of generated operation match arms: one entry per
operation that declared an `http` option, in declaration order, keeping
the operation's declaration index (its Activation variant tag). -/
def httpArmsAux {S V : Type} : Nat → List (OpSpec S V) → List (Nat × OpSpec S V × Route)
  | _, [] => []
  | i, op :: rest =>
    match op.http with
    | some r => (i, op, r) :: httpArmsAux (i + 1) rest
    | none => httpArmsAux (i + 1) rest

/-- Operation route arms of a machine, in declaration order. -/
def httpArms {S V : Type} (m : Machine S V) : List (Nat × OpSpec S V × Route) :=
  httpArmsAux 0 m.ops

/-- Bytes of a string, for response bodies built from `format!` strings
via `as_bytes` (machine.rs lines 339, 349). -/
def strBytes (s : String) : Bytes :=
  s.data.map Char.toNat

/-- Argument decoding of a matched arm (machine.rs lines 283-294): a POST
route decodes the operation's container from the request body as JSON, a
GET route decodes it from the query string as URL-encoded form fields. -/
def armDecode {S V : Type} (m : Machine S V) (i : Nat) (r : Route) (req : HttpRequest) :
    Except String (List V) :=
  match r.verb with
  | Verb.post => m.jsonDecArgs i req.body
  | Verb.get => m.formDecArgs i req.query

/-- The verb's name as `stringify!` renders it in the 500 message
(machine.rs lines 257-260, 349). -/
def verbName : Verb → String
  | Verb.get => "Get"
  | Verb.post => "Post"

/-- The body of the 500 response, from the `format!` call at machine.rs
line 349: the verb's name, the route's path literal, and the error the
self-activation returned. -/
def selfActMsg (r : Route) (e : String) : String :=
  "HTTP handler failed to self-activate via " ++ verbName r.verb ++ ", " ++ r.path ++ ": " ++ e

/-- Body of one matched operation arm (machine.rs lines 333-356): decode
the arguments (400 with the error message on failure, before any call),
wrap them in the operation's Activation variant, bincode-encode it, call
the host's `Cap::self_activate`, turn its error into a 500 response, and
on success either answer 204 with an empty body (no declared return type)
or bincode-decode the output and answer 200 with its JSON encoding
(lines 299-331).  The `none` results model the `expect` panics; the second
component records the inputs passed to `self_activate`. -/
def opArm {S V : Type} (m : Machine S V) (sa : Bytes → Except String Bytes)
    (req : HttpRequest) (i : Nat) (op : OpSpec S V) (r : Route) :
    Option HttpResponse × List Bytes :=
  match armDecode m i r req with
  | Except.error e => (some ⟨400, [], strBytes e⟩, [])
  | Except.ok args =>
    let binaryInput := encodeActivation m ⟨i, args⟩
    match sa binaryInput with
    | Except.error e => (some ⟨500, [], strBytes (selfActMsg r e)⟩, [binaryInput])
    | Except.ok output =>
      if op.hasRet then
        match m.decVal output with
        | none => (none, [binaryInput])
        | some (v, _) => (some ⟨200, [], m.jsonEncVal v⟩, [binaryInput])
      else (some ⟨204, [], []⟩, [binaryInput])

/-- The two fixed trailing arms of the generated match: the
`(Get, "/")` documentation arm answering 200 with the pre-rendered page
(machine.rs lines 392-398), then the catch-all arm answering 404 with an
empty body (lines 401-407). -/
def noMatch {S V : Type} (m : Machine S V) (req : HttpRequest) :
    Option HttpResponse × List Bytes :=
  if routeHit ⟨Verb.get, "/"⟩ req.method req.path then (some ⟨200, [], m.docPage⟩, [])
  else (some ⟨404, [], []⟩, [])

/-- Sequential scan of the generated operation arms: the first arm whose
literal `(verb, path)` pattern equals the request's runs; when none does,
control falls to the documentation arm and then the catch-all. -/
def scanArms {S V : Type} (m : Machine S V) (sa : Bytes → Except String Bytes)
    (req : HttpRequest) : List (Nat × OpSpec S V × Route) → Option HttpResponse × List Bytes
  | [] => noMatch m req
  | e :: rest =>
    if routeHit e.2.2 req.method req.path then opArm m sa req e.1 e.2.1 e.2.2
    else scanArms m sa req rest

/-- The generated `handle_http` (machine.rs lines 465-476 with the match
built at lines 409-415): match `(request.method, path)` over the
operation arms in declaration order, then the documentation arm, then the
catch-all.  `sa` is the host-supplied `Cap::self_activate` primitive. -/
def handleHttp {S V : Type} (m : Machine S V) (sa : Bytes → Except String Bytes)
    (req : HttpRequest) : Option HttpResponse × List Bytes :=
  scanArms m sa req (httpArms m)

/-- First structurally matching operation arm for a verb and path, used to
state route-resolution claims independently of execution. -/
def findRoute {S V : Type} (v : Verb) (p : String) :
    List (Nat × OpSpec S V × Route) → Option (Nat × OpSpec S V × Route)
  | [] => none
  | e :: rest => if routeHit e.2.2 v p then some e else findRoute v p rest

/-- Leaf decoder of the concrete test machine: one token per value. -/
def natDec : Bytes → Option (Nat × Bytes)
  | [] => none
  | n :: rest => some (n, rest)

/-- Operation `get_count(&self, cap) -> u64`, routed `GET /count`. -/
def opGetCount : OpSpec Nat Nat :=
  { name := "get_count", params := [],
    impl := fun s _ _ => s, hasRet := true,
    http := some ⟨Verb.get, "/count"⟩ }

/-- Operation `add(&self, cap, x, y) -> u64`, routed `POST /add`. -/
def opAdd : OpSpec Nat Nat :=
  { name := "add", params := ["x", "y"],
    impl := fun s _ args => s + args.sum, hasRet := true,
    http := some ⟨Verb.post, "/add"⟩ }

/-- Operation `ping(&self, cap)` with no return type, routed `POST /ping`. -/
def opPing : OpSpec Nat Nat :=
  { name := "ping", params := [],
    impl := fun _ _ _ => 0, hasRet := false,
    http := some ⟨Verb.post, "/ping"⟩ }

/-- A concrete machine instance over `Nat` state and values, with a
single-token leaf codec and simple total models of the JSON and form
collaborators, used to instantiate the general theorems. -/
def cm : Machine Nat Nat :=
  { encState := fun s => [s], decState := natDec,
    encVal := fun v => [v], decVal := natDec,
    ops := [opGetCount, opAdd, opPing],
    jsonDecArgs := fun i b =>
      if b = [91, 93] then Except.ok []
      else if i = 1 ∧ b.length = 2 then Except.ok b
      else Except.error "invalid json",
    formDecArgs := fun _ q =>
      if q = "" then Except.ok [] else Except.error "invalid query",
    jsonEncVal := fun v => [v],
    jsonDecVal := fun b => match b with | [n] => some n | _ => none,
    docPage := strBytes "<html>welcome</html>" }

example : activate cm [7] (encodeActivation cm ⟨1, [2, 3]⟩) =
    (some [12], [⟨"add", CapToken.activateCap, [2, 3]⟩]) := by decide

example : handleHttp cm (fun _ => Except.ok [9]) ⟨Verb.get, "/count", "", []⟩ =
    (some ⟨200, [], [9]⟩, [[0]]) := by decide

example : handleHttp cm (fun _ => Except.ok []) ⟨Verb.post, "/ping", "", [91, 93]⟩ =
    (some ⟨204, [], []⟩, [[2]]) := by decide

example : handleHttp cm (fun _ => Except.ok []) ⟨Verb.get, "/nope", "", []⟩ =
    (some ⟨404, [], []⟩, []) := by decide

example : handleHttp cm (fun _ => Except.ok []) ⟨Verb.get, "/", "", []⟩ =
    (some ⟨200, [], strBytes "<html>welcome</html>"⟩, []) := by decide

/-- Leaf round trip lifts to containers: decoding as many fields as were
encoded returns exactly the encoded field values, in order, leaving the
remainder untouched. -/
theorem decodeFields_encFields {S V : Type} (m : Machine S V)
    (hval : ∀ v rest, m.decVal (m.encVal v ++ rest) = some (v, rest)) :
    ∀ (args : List V) (rest : Bytes),
      decodeFields m args.length (encFields m args ++ rest) = some (args, rest) := by
  intro args
  induction args with
  | nil => intro rest; simp [decodeFields, encFields]
  | cons v vs ih =>
    intro rest
    simp [decodeFields, encFields, List.append_assoc, hval, ih]

/-- Activation encoding round trip: the Activation wire format is the
variant tag followed by the container fields, and decoding it restores
the tag and all field values with nothing left over. -/
theorem decodeActivation_encode {S V : Type} (m : Machine S V)
    (hval : ∀ v rest, m.decVal (m.encVal v ++ rest) = some (v, rest))
    (i : Nat) (op : OpSpec S V) (hop : m.ops.get? i = some op)
    (args : List V) (hlen : args.length = op.params.length) :
    decodeActivation m (encodeActivation m ⟨i, args⟩) = some (⟨i, args⟩, []) := by
  have h := decodeFields_encFields m hval args []
  rw [List.append_nil, hlen] at h
  have hop' : m.ops[i]? = some op := by rw [← List.get?_eq_getElem?]; exact hop
  simp [decodeActivation, encodeActivation, hop', h]

/-- C6: for every operation and every argument tuple, encoding the
operation's Activation variant with the binary codec and decoding it
yields the original field values (given the external leaf codec's own
round trip, which is bincode's contract), and the encoding is the variant
tag followed by the container's fields in parameter declaration order. -/
theorem activation_roundtrip {S V : Type} (m : Machine S V)
    (hval : ∀ v rest, m.decVal (m.encVal v ++ rest) = some (v, rest))
    (i : Nat) (op : OpSpec S V) (hop : m.ops.get? i = some op)
    (args : List V) (hlen : args.length = op.params.length) :
    decodeActivation m (encodeActivation m ⟨i, args⟩) = some (⟨i, args⟩, [])
    ∧ encodeActivation m ⟨i, args⟩ = i :: encFields m args := by
  exact ⟨decodeActivation_encode m hval i op hop args hlen, rfl⟩

/-- Witness for C6 at the concrete machine: round-tripping the `add`
variant with arguments `[2, 3]`. -/
theorem activation_roundtrip_witness :
    decodeActivation cm (encodeActivation cm ⟨1, [2, 3]⟩) = some (⟨1, [2, 3]⟩, [])
    ∧ encodeActivation cm ⟨1, [2, 3]⟩ = 1 :: encFields cm [2, 3] :=
  activation_roundtrip cm (fun _ _ => rfl) 1 opAdd rfl [2, 3] rfl

/-- C1: calling the generated `activate` on the encoded state and the
encoded Activation variant of operation `op` invokes `op` exactly once on
the decoded state — passing the capability value first and the container's
fields in declaration order — and returns the bincode encoding of the
value a direct invocation on that state would produce (the empty unit
encoding when the operation declares no return type). -/
theorem activate_direct_equiv {S V : Type} (m : Machine S V)
    (hstate : ∀ s rest, m.decState (m.encState s ++ rest) = some (s, rest))
    (hval : ∀ v rest, m.decVal (m.encVal v ++ rest) = some (v, rest))
    (s : S) (i : Nat) (op : OpSpec S V) (hop : m.ops.get? i = some op)
    (args : List V) (hlen : args.length = op.params.length) :
    activate m (m.encState s) (encodeActivation m ⟨i, args⟩) =
      (some (if op.hasRet then m.encVal (op.impl s CapToken.activateCap args) else []),
       [⟨op.name, CapToken.activateCap, args⟩]) := by
  have hs : m.decState (m.encState s) = some (s, []) := by
    have := hstate s []
    rwa [List.append_nil] at this
  have hdec := decodeActivation_encode m hval i op hop args hlen
  have hop' : m.ops[i]? = some op := by rw [← List.get?_eq_getElem?]; exact hop
  simp [activate, hs, hdec, hop']

/-- Witness for C1: on the concrete machine with state `7`, dispatching
the `add` variant with arguments `[2, 3]` produces the encoded sum `12`
and exactly one invocation event. -/
theorem activate_direct_equiv_witness :
    activate cm (cm.encState 7) (encodeActivation cm ⟨1, [2, 3]⟩) =
      (some (if opAdd.hasRet then cm.encVal (opAdd.impl 7 CapToken.activateCap [2, 3]) else []),
       [⟨opAdd.name, CapToken.activateCap, [2, 3]⟩]) :=
  activate_direct_equiv cm (fun _ _ => rfl) (fun _ _ => rfl) 7 1 opAdd rfl [2, 3] rfl

/-- C7: when the state bytes do not decode as the machine's state, or the
input bytes do not decode as an Activation, `activate` aborts: no
operation is invoked (empty trace) and the call produces no output bytes
and no structured error (`none` is the modelled panic — the generated
function's only failure mode is the `expect` panic). -/
theorem activate_decode_abort {S V : Type} (m : Machine S V) (sb ib : Bytes)
    (h : m.decState sb = none ∨ decodeActivation m ib = none) :
    activate m sb ib = (none, []) := by
  rcases h with h | h
  · simp [activate, h]
  · cases hs : m.decState sb with
    | none => simp [activate, hs]
    | some p => simp [activate, hs, h]

/-- Witness for C7: empty state bytes fail to decode on the concrete
machine and the call aborts with no invocation. -/
theorem activate_decode_abort_witness : activate cm [] [0] = (none, []) :=
  activate_decode_abort cm [] [0] (Or.inl rfl)

/-- The sequential arm scan equals dispatch on the first structural match:
run the first matching operation arm, otherwise fall through to the
documentation and catch-all arms. -/
theorem scanArms_eq_find {S V : Type} (m : Machine S V) (sa : Bytes → Except String Bytes)
    (req : HttpRequest) :
    ∀ l, scanArms m sa req l =
      match findRoute req.method req.path l with
      | some e => opArm m sa req e.1 e.2.1 e.2.2
      | none => noMatch m req := by
  intro l
  induction l with
  | nil => rfl
  | cons e rest ih =>
    by_cases h : routeHit e.2.2 req.method req.path
    · simp [scanArms, findRoute, h]
    · simp [scanArms, findRoute, h, ih]

/-- The first match is order-sensitive: an entry that matches, all of
whose predecessors do not match, is the one `findRoute` returns. -/
theorem findRoute_first {S V : Type} (v : Verb) (p : String) :
    ∀ (l : List (Nat × OpSpec S V × Route)) (n : Nat) (e : Nat × OpSpec S V × Route),
      l.get? n = some e → routeHit e.2.2 v p →
      (∀ k e', k < n → l.get? k = some e' → ¬ routeHit e'.2.2 v p) →
      findRoute v p l = some e := by
  intro l
  induction l with
  | nil => intro n e h; simp at h
  | cons a rest ih =>
    intro n e hget hhit hmin
    cases n with
    | zero =>
      have ha : a = e := by simpa using hget
      subst ha
      simp [findRoute, hhit]
    | succ n =>
      have ha : ¬ routeHit a.2.2 v p := hmin 0 a (Nat.succ_pos n) rfl
      have hget' : rest.get? n = some e := by simpa using hget
      simp only [findRoute, if_neg ha]
      exact ih n e hget' hhit fun k e' hk hg => hmin (k + 1) e' (Nat.succ_lt_succ hk) (by simpa using hg)

/-- A matching entry somewhere in the scan list guarantees the scan stops
at some matching entry. -/
theorem findRoute_mem_some {S V : Type} (v : Verb) (p : String) :
    ∀ (l : List (Nat × OpSpec S V × Route)) (k : Nat) (e : Nat × OpSpec S V × Route),
      l.get? k = some e → routeHit e.2.2 v p →
      ∃ e', findRoute v p l = some e' ∧ routeHit e'.2.2 v p := by
  intro l
  induction l with
  | nil => intro k e h; simp at h
  | cons a rest ih =>
    intro k e hget hhit
    by_cases ha : routeHit a.2.2 v p
    · exact ⟨a, by simp [findRoute, ha], ha⟩
    · cases k with
      | zero =>
        have : a = e := by simpa using hget
        subst this
        exact absurd hhit ha
      | succ k =>
        obtain ⟨e', h1, h2⟩ := ih k e (by simpa using hget) hhit
        exact ⟨e', by simp [findRoute, ha, h1], h2⟩

/-- C9: the generated `handle_http` match scans the route table in fixed
order with exact `(verb, path)` equality and the first structural match
produces the response; when no operation route matches, the trailing
documentation arm answers a `GET /` request with status 200 and the
pre-rendered page, and the final catch-all answers 404 with an empty
body; among the operation arms, an entry all of whose earlier-registered
entries fail to match is the one that wins. -/
theorem route_scan_first_match {S V : Type} (m : Machine S V)
    (sa : Bytes → Except String Bytes) (req : HttpRequest) :
    (handleHttp m sa req =
      match findRoute req.method req.path (httpArms m) with
      | some e => opArm m sa req e.1 e.2.1 e.2.2
      | none => noMatch m req)
    ∧ (findRoute req.method req.path (httpArms m) = none →
        ¬ routeHit ⟨Verb.get, "/"⟩ req.method req.path →
        handleHttp m sa req = (some ⟨404, [], []⟩, []))
    ∧ (findRoute req.method req.path (httpArms m) = none →
        routeHit ⟨Verb.get, "/"⟩ req.method req.path →
        handleHttp m sa req = (some ⟨200, [], m.docPage⟩, []))
    ∧ (∀ n e, (httpArms m).get? n = some e →
        routeHit e.2.2 req.method req.path →
        (∀ k e', k < n → (httpArms m).get? k = some e' →
          ¬ routeHit e'.2.2 req.method req.path) →
        findRoute req.method req.path (httpArms m) = some e) := by
  refine ⟨scanArms_eq_find m sa req (httpArms m), ?_, ?_, ?_⟩
  · intro hnone hnotdoc
    rw [handleHttp, scanArms_eq_find m sa req (httpArms m), hnone]
    simp [noMatch, hnotdoc]
  · intro hnone hdoc
    rw [handleHttp, scanArms_eq_find m sa req (httpArms m), hnone]
    simp [noMatch, hdoc]
  · exact findRoute_first req.method req.path (httpArms m)

/-- Witness for C9: on the concrete machine, an unmapped path falls
through to the catch-all 404, and the `add` entry is found by the ordered
scan once its lone predecessor is checked not to match. -/
theorem route_scan_first_match_witness :
    handleHttp cm (fun _ => Except.ok [9]) ⟨Verb.get, "/nope", "", []⟩ = (some ⟨404, [], []⟩, [])
    ∧ findRoute Verb.post "/add" (httpArms cm) = some (1, opAdd, ⟨Verb.post, "/add"⟩) := by
  constructor
  · exact (route_scan_first_match cm (fun _ => Except.ok [9]) ⟨Verb.get, "/nope", "", []⟩).2.1
      rfl (by decide)
  · refine (route_scan_first_match cm (fun _ => Except.ok [9])
      ⟨Verb.post, "/add", "", []⟩).2.2.2 1 (1, opAdd, ⟨Verb.post, "/add"⟩) rfl ⟨rfl, rfl⟩ ?_
    intro k e' hk hg
    have hk0 : k = 0 := Nat.lt_one_iff.mp hk
    subst hk0
    have he' : some ((0 : Nat), opGetCount, (⟨Verb.get, "/count"⟩ : Route)) = some e' := hg
    have he'' := (Option.some.inj he').symm
    subst he''
    decide

/-- Operation routed at `GET /`, shadowing the documentation arm. -/
def opRoot : OpSpec Nat Nat :=
  { name := "root", params := [], impl := fun s _ _ => s, hasRet := true,
    http := some ⟨Verb.get, "/"⟩ }

/-- Concrete machine whose only operation claims the `GET /` route. -/
def cmRoot : Machine Nat Nat := { cm with ops := [opRoot] }

/-- C10: when some operation declares the route `GET /`, its generated
match arm precedes the documentation arm, so a `GET /` request dispatches
to the first such operation's arm and the documentation arm never
produces the response. -/
theorem root_route_shadows_doc {S V : Type} (m : Machine S V)
    (sa : Bytes → Except String Bytes) (q : String) (b : Bytes)
    (k : Nat) (e : Nat × OpSpec S V × Route)
    (hmem : (httpArms m).get? k = some e) (hroot : e.2.2 = ⟨Verb.get, "/"⟩) :
    ∃ i op, findRoute Verb.get "/" (httpArms m) = some (i, op, ⟨Verb.get, "/"⟩)
      ∧ handleHttp m sa ⟨Verb.get, "/", q, b⟩ =
          opArm m sa ⟨Verb.get, "/", q, b⟩ i op ⟨Verb.get, "/"⟩ := by
  obtain ⟨e', hfind, hhit⟩ := findRoute_mem_some Verb.get "/" (httpArms m) k e hmem
    (by rw [hroot]; exact ⟨rfl, rfl⟩)
  obtain ⟨i, op, r⟩ := e'
  obtain ⟨hv, hp⟩ := hhit
  have hr : r = ⟨Verb.get, "/"⟩ := by cases r; simp_all
  subst hr
  refine ⟨i, op, hfind, ?_⟩
  have h1 := scanArms_eq_find m sa ⟨Verb.get, "/", q, b⟩ (httpArms m)
  rw [handleHttp, h1]
  simp only [hfind]

/-- Witness for C10: on `cmRoot` the `GET /` request runs the `root`
operation's arm, not the documentation arm. -/
theorem root_route_shadows_doc_witness :
    findRoute Verb.get "/" (httpArms cmRoot) = some (0, opRoot, ⟨Verb.get, "/"⟩)
    ∧ handleHttp cmRoot (fun _ => Except.ok [1]) ⟨Verb.get, "/", "", []⟩ =
        opArm cmRoot (fun _ => Except.ok [1]) ⟨Verb.get, "/", "", []⟩ 0 opRoot ⟨Verb.get, "/"⟩ := by
  obtain ⟨i, op, h1, h2⟩ := root_route_shadows_doc cmRoot (fun _ => Except.ok [1]) "" [] 0
    (0, opRoot, ⟨Verb.get, "/"⟩) rfl rfl
  have h1' : some ((0 : Nat), opRoot, (⟨Verb.get, "/"⟩ : Route)) =
      some (i, op, (⟨Verb.get, "/"⟩ : Route)) := h1
  have h0 := Option.some.inj h1'
  have hi : (0 : Nat) = i := congrArg Prod.fst h0
  have hop : opRoot = op := congrArg (fun x => x.2.1) h0
  subst hi
  subst hop
  exact ⟨h1, h2⟩

/-- C4: when a request matches a declared route but its argument decoding
fails, `handle_http` answers 400 with the decode error message as the
body and never calls `self_activate` (empty call trace) — so no operation
runs and the machine state, which only the re-entry path can reach, is
untouched; the body is non-empty whenever the message is. -/
theorem http400_no_invoke {S V : Type} (m : Machine S V)
    (sa : Bytes → Except String Bytes) (req : HttpRequest)
    (i : Nat) (op : OpSpec S V) (r : Route) (e : String)
    (hm : findRoute req.method req.path (httpArms m) = some (i, op, r))
    (hd : armDecode m i r req = Except.error e) :
    handleHttp m sa req = (some ⟨400, [], strBytes e⟩, [])
    ∧ (e ≠ "" → strBytes e ≠ []) := by
  constructor
  · rw [handleHttp, scanArms_eq_find m sa req (httpArms m), hm]
    simp [opArm, hd]
  · intro hne hmap
    apply hne
    have hdata : e.data = [] := List.map_eq_nil_iff.mp hmap
    cases e with
    | mk l =>
      simp only [String.data] at hdata
      rw [hdata]

/-- Witness for C4: a one-byte body fails the concrete JSON decoder on
the `POST /add` route; the response is 400 carrying the message and no
self-activation happens. -/
theorem http400_no_invoke_witness :
    handleHttp cm (fun _ => Except.ok [0]) ⟨Verb.post, "/add", "", [9]⟩ =
      (some ⟨400, [], strBytes "invalid json"⟩, [])
    ∧ ("invalid json" ≠ "" → strBytes "invalid json" ≠ []) :=
  http400_no_invoke cm (fun _ => Except.ok [0]) ⟨Verb.post, "/add", "", [9]⟩
    1 opAdd ⟨Verb.post, "/add"⟩ "invalid json" rfl rfl

/-- Whether `pat` occurs at the start of a byte string. -/
def bytesAtStart : Bytes → Bytes → Bool
  | [], _ => true
  | _ :: _, [] => false
  | a :: asTail, b :: bs => (a == b) && bytesAtStart asTail bs

/-- Whether `pat` occurs anywhere inside a byte string. -/
def bytesContains (pat : Bytes) : Bytes → Bool
  | [] => bytesAtStart pat []
  | b :: bs => bytesAtStart pat (b :: bs) || bytesContains pat bs

/-- C2 amended: when a matched request decodes and the self re-entry call
fails, `handle_http` answers 500 and the body is exactly the generated
message naming the HTTP verb, the route path, and the failure detail
returned by the re-entry call (the operation name appears only insofar as
the path spells it, as derived default routes do). -/
theorem http500_message {S V : Type} (m : Machine S V)
    (sa : Bytes → Except String Bytes) (req : HttpRequest)
    (i : Nat) (op : OpSpec S V) (r : Route) (args : List V) (e : String)
    (hm : findRoute req.method req.path (httpArms m) = some (i, op, r))
    (hd : armDecode m i r req = Except.ok args)
    (hself : sa (encodeActivation m ⟨i, args⟩) = Except.error e) :
    handleHttp m sa req =
      (some ⟨500, [], strBytes (selfActMsg r e)⟩, [encodeActivation m ⟨i, args⟩]) := by
  rw [handleHttp, scanArms_eq_find m sa req (httpArms m), hm]
  simp [opArm, hd, hself]

/-- Operation named `foo` routed at the explicit path `POST /bar`. -/
def opFoo : OpSpec Nat Nat :=
  { name := "foo", params := ["x"], impl := fun _ _ _ => 0, hasRet := false,
    http := some ⟨Verb.post, "/bar"⟩ }

/-- Concrete machine for the C2 counterexample: one operation whose
explicit route path does not mention its name, with an always-succeeding
argument decoder. -/
def cmFoo : Machine Nat Nat :=
  { cm with ops := [opFoo], jsonDecArgs := fun _ _ => Except.ok [1] }

/-- C2 counterexample: on a matched `POST /bar` request whose self
re-entry fails, the 500 body is the generated message and the operation
name `foo` occurs nowhere in it — the body names the verb, path and
failure detail, not the operation name. -/
theorem http500_opname_cex :
    (handleHttp cmFoo (fun _ => Except.error "boom") ⟨Verb.post, "/bar", "", [1]⟩).1 =
      some ⟨500, [], strBytes (selfActMsg ⟨Verb.post, "/bar"⟩ "boom")⟩
    ∧ bytesContains (strBytes "foo") (strBytes (selfActMsg ⟨Verb.post, "/bar"⟩ "boom")) = false
    ∧ opFoo.name = "foo" := by
  refine ⟨?_, by decide, rfl⟩
  rfl

/-- Witness for the amended C2 on the concrete machine: the 500 response
body spells out verb `Post`, path `/bar` and detail `boom`. -/
theorem http500_message_witness :
    handleHttp cmFoo (fun _ => Except.error "boom") ⟨Verb.post, "/bar", "", [1]⟩ =
      (some ⟨500, [], strBytes (selfActMsg ⟨Verb.post, "/bar"⟩ "boom")⟩,
       [encodeActivation cmFoo ⟨0, [1]⟩]) :=
  http500_message cmFoo (fun _ => Except.error "boom") ⟨Verb.post, "/bar", "", [1]⟩
    0 opFoo ⟨Verb.post, "/bar"⟩ [1] "boom" rfl rfl rfl

/-- C5: when a matched request decodes and the self re-entry call
returns what the binary dispatcher produces on the current state, the
bridge answers 204 with an empty body for an operation without a return
type, and 200 with the JSON encoding of the bincode-decoded output for an
operation with one — a body whose structured decoding is the operation's
true return value (given the external codecs' round trips). -/
theorem http_success_marshal {S V : Type} (m : Machine S V)
    (sa : Bytes → Except String Bytes) (req : HttpRequest)
    (i : Nat) (op : OpSpec S V) (r : Route) (args : List V) (s : S)
    (hval : ∀ v rest, m.decVal (m.encVal v ++ rest) = some (v, rest))
    (hjson : ∀ v, m.jsonDecVal (m.jsonEncVal v) = some v)
    (hm : findRoute req.method req.path (httpArms m) = some (i, op, r))
    (hd : armDecode m i r req = Except.ok args)
    (hself : sa (encodeActivation m ⟨i, args⟩) =
      Except.ok (if op.hasRet then m.encVal (op.impl s CapToken.activateCap args) else [])) :
    (op.hasRet = false →
      handleHttp m sa req = (some ⟨204, [], []⟩, [encodeActivation m ⟨i, args⟩]))
    ∧ (op.hasRet = true →
      handleHttp m sa req =
        (some ⟨200, [], m.jsonEncVal (op.impl s CapToken.activateCap args)⟩,
         [encodeActivation m ⟨i, args⟩])
      ∧ m.jsonDecVal (m.jsonEncVal (op.impl s CapToken.activateCap args)) =
          some (op.impl s CapToken.activateCap args)) := by
  constructor
  · intro hret
    rw [hret] at hself
    simp at hself
    rw [handleHttp, scanArms_eq_find m sa req (httpArms m), hm]
    simp [opArm, hd, hself, hret]
  · intro hret
    rw [hret] at hself
    simp at hself
    have hout : m.decVal (m.encVal (op.impl s CapToken.activateCap args)) =
        some (op.impl s CapToken.activateCap args, []) := by
      have := hval (op.impl s CapToken.activateCap args) []
      rwa [List.append_nil] at this
    constructor
    · rw [handleHttp, scanArms_eq_find m sa req (httpArms m), hm]
      simp [opArm, hd, hself, hret, hout]
    · exact hjson _

/-- Witness for C5: the `POST /ping` flow of the concrete machine answers
204 with an empty body, and the `GET /count` flow answers 200 with a body
whose structured decoding is the state the operation returned. -/
theorem http_success_marshal_witness :
    handleHttp cm (fun _ => Except.ok []) ⟨Verb.post, "/ping", "", [91, 93]⟩ =
      (some ⟨204, [], []⟩, [encodeActivation cm ⟨2, []⟩])
    ∧ (handleHttp cm (fun _ => Except.ok [7]) ⟨Verb.get, "/count", "", []⟩ =
        (some ⟨200, [], cm.jsonEncVal 7⟩, [encodeActivation cm ⟨0, []⟩])
      ∧ cm.jsonDecVal (cm.jsonEncVal 7) = some 7) := by
  constructor
  · exact (http_success_marshal cm (fun _ => Except.ok []) ⟨Verb.post, "/ping", "", [91, 93]⟩
      2 opPing ⟨Verb.post, "/ping"⟩ [] 0 (fun _ _ => rfl) (fun _ => rfl) rfl rfl rfl).1 rfl
  · exact (http_success_marshal cm (fun _ => Except.ok [7]) ⟨Verb.get, "/count", "", []⟩
      0 opGetCount ⟨Verb.get, "/count"⟩ [] 7 (fun _ _ => rfl) (fun _ => rfl) rfl rfl rfl).2 rfl

/-- C3 amended: a request whose `(verb, path)` matches no declared route
falls to the trailing arms even when some declared route has the same
path under the other verb — yielding 404 with an empty body except at
path `/`, where a `GET` is instead answered by the documentation arm;
and a matched `GET` route's response never depends on the request body,
while a matched `POST` route's response never depends on the query
string (GET decodes from the query, POST from the body). -/
theorem verb_mismatch_404 {S V : Type} (m : Machine S V)
    (sa : Bytes → Except String Bytes) (req : HttpRequest) :
    (findRoute req.method req.path (httpArms m) = none →
      (∃ k e, (httpArms m).get? k = some e
        ∧ e.2.2.path = req.path ∧ e.2.2.verb ≠ req.method) →
      ¬ routeHit ⟨Verb.get, "/"⟩ req.method req.path →
      handleHttp m sa req = (some ⟨404, [], []⟩, []))
    ∧ (∀ i op r b, findRoute req.method req.path (httpArms m) = some (i, op, r) →
        r.verb = Verb.get →
        handleHttp m sa req = handleHttp m sa ⟨req.method, req.path, req.query, b⟩)
    ∧ (∀ i op r q, findRoute req.method req.path (httpArms m) = some (i, op, r) →
        r.verb = Verb.post →
        handleHttp m sa req = handleHttp m sa ⟨req.method, req.path, q, req.body⟩) := by
  refine ⟨?_, ?_, ?_⟩
  · intro hnone _ hnotdoc
    rw [handleHttp, scanArms_eq_find m sa req (httpArms m), hnone]
    simp [noMatch, hnotdoc]
  · intro i op r b hm hverb
    rw [handleHttp, handleHttp, scanArms_eq_find m sa req (httpArms m),
      scanArms_eq_find m sa ⟨req.method, req.path, req.query, b⟩ (httpArms m)]
    simp only [hm]
    simp [opArm, armDecode, hverb]
  · intro i op r q hm hverb
    rw [handleHttp, handleHttp, scanArms_eq_find m sa req (httpArms m),
      scanArms_eq_find m sa ⟨req.method, req.path, q, req.body⟩ (httpArms m)]
    simp only [hm]
    simp [opArm, armDecode, hverb]

/-- Operation routed at `POST /`, for the C3 counterexample. -/
def opRootPost : OpSpec Nat Nat :=
  { name := "rootp", params := [], impl := fun _ _ _ => 0, hasRet := false,
    http := some ⟨Verb.post, "/"⟩ }

/-- Concrete machine whose only route is `POST /`. -/
def cmRootPost : Machine Nat Nat := { cm with ops := [opRootPost] }

/-- C3 counterexample: a `GET` to the path of a POST-only route is not
always a 404 — when that path is `/`, the documentation arm matches and
answers 200 with the welcome page. -/
theorem verb_mismatch_root_cex :
    (handleHttp cmRootPost (fun _ => Except.ok []) ⟨Verb.get, "/", "", []⟩).1 =
      some ⟨200, [], cmRootPost.docPage⟩
    ∧ (handleHttp cmRootPost (fun _ => Except.ok []) ⟨Verb.get, "/", "", []⟩).1 ≠
        some ⟨404, [], []⟩
    ∧ opRootPost.http = some ⟨Verb.post, "/"⟩ := by
  refine ⟨by decide, by decide, rfl⟩

/-- Witness for the amended C3: `GET /add` (a POST-only route) yields the
404 catch-all on the concrete machine, and the `GET /count` response is
unchanged under a different request body. -/
theorem verb_mismatch_404_witness :
    handleHttp cm (fun _ => Except.ok []) ⟨Verb.get, "/add", "", []⟩ = (some ⟨404, [], []⟩, [])
    ∧ handleHttp cm (fun _ => Except.ok [7]) ⟨Verb.get, "/count", "", [5]⟩ =
        handleHttp cm (fun _ => Except.ok [7]) ⟨Verb.get, "/count", "", [6]⟩ := by
  constructor
  · exact (verb_mismatch_404 cm (fun _ => Except.ok []) ⟨Verb.get, "/add", "", []⟩).1 rfl
      ⟨1, (1, opAdd, ⟨Verb.post, "/add"⟩), rfl, rfl, by decide⟩ (by decide)
  · exact (verb_mismatch_404 cm (fun _ => Except.ok [7]) ⟨Verb.get, "/count", "", [5]⟩).2.1
      0 opGetCount ⟨Verb.get, "/count"⟩ [6] rfl rfl

/-- Receiver shapes of a Rust method, as `syn::FnArg::Receiver` carries
them: `self`, `&self`, `&mut self`.  The macro's check at machine.rs
line 85 matches `FnArg::Receiver(_)` — any of these shapes. -/
inductive RecvKind : Type
  | owned : RecvKind
  | refShared : RecvKind
  | refMut : RecvKind
deriving DecidableEq, Repr

/-- Parameter patterns as the macro distinguishes them: a plain
identifier (`syn::Pat::Ident`) or anything else. -/
inductive SynPat : Type
  | ident (name : String) : SynPat
  | other : SynPat
deriving DecidableEq, Repr

/-- A typed (non-receiver) parameter: its pattern, type text, and the
names of its attributes. -/
structure TypedArg : Type where
  pat : SynPat
  ty : String
  attrs : List String
deriving DecidableEq, Repr

/-- A method parameter: a receiver or a typed parameter. -/
inductive SynArg : Type
  | recv (k : RecvKind) : SynArg
  | typed (a : TypedArg) : SynArg
deriving DecidableEq, Repr

/-- A method of the impl block as the macro's loop sees it: name, whether
it carries the `#[activate]` attribute, its parameters in order, whether
it declares a return type, and its parsed HTTP route option. -/
structure MethodSyn : Type where
  name : String
  activated : Bool
  args : List SynArg
  hasRet : Bool
  http : Option Route
deriving DecidableEq, Repr

/-- The descriptor the schema extraction produces per operation:
parameters are (name, type, structured-decoding hint) in declaration
order. -/
structure OpDescriptor : Type where
  name : String
  params : List (String × String × Bool)
  hasRet : Bool
  http : Option Route
deriving DecidableEq, Repr

/-- Attribute validation for one parameter (machine.rs lines 113-121):
each attribute must be `with_serde` (recorded as the structured-decoding
hint); any other attribute is a compile error. -/
def checkAttrs : List String → Except String Bool
  | [] => Except.ok false
  | a :: rest =>
    if a = "with_serde" then
      match checkAttrs rest with
      | Except.ok _ => Except.ok true
      | Except.error e => Except.error e
    else Except.error "only with_serde is a valid function argument attribute"

/-- The second-parameter step (machine.rs lines 92-101): a plain
identifier named `cap` or `_cap` is consumed; a plain identifier with any
other name is a compile error; any other shape is left for the parameter
loop (which will reject it as not plain). -/
def capStep : List SynArg → Except String (List SynArg)
  | SynArg.typed a :: rest =>
    match a.pat with
    | SynPat.ident n =>
      if n = "cap" ∨ n = "_cap" then Except.ok rest
      else Except.error "the second argument after self to an activate method must be cap"
    | SynPat.other => Except.ok (SynArg.typed a :: rest)
  | l => Except.ok l

/-- The remaining-parameter loop (machine.rs lines 103-149): every
remaining parameter must be a plain identifier with only `with_serde`
attributes; a receiver here is the loop's `unreachable!()` panic,
modelled as an error since either way the build produces nothing. -/
def extractParams : List SynArg → Except String (List (String × String × Bool))
  | [] => Except.ok []
  | SynArg.recv _ :: _ => Except.error "unexpected receiver"
  | SynArg.typed a :: rest =>
    match a.pat with
    | SynPat.ident n =>
      match checkAttrs a.attrs with
      | Except.error e => Except.error e
      | Except.ok hint =>
        match extractParams rest with
        | Except.error e => Except.error e
        | Except.ok ps => Except.ok ((n, a.ty, hint) :: ps)
    | SynPat.other => Except.error "activate methods only take plain fn arguments"

/-- Schema extraction for one `#[activate]` method (machine.rs lines
83-149): the first parameter must be a receiver (the check matches any
`FnArg::Receiver`), then the optional capability parameter is consumed,
then the remaining parameters are validated and collected in order. -/
def extractMethod (mth : MethodSyn) : Except String OpDescriptor :=
  match mth.args with
  | SynArg.recv _ :: rest =>
    match capStep rest with
    | Except.error e => Except.error e
    | Except.ok rest2 =>
      match extractParams rest2 with
      | Except.error e => Except.error e
      | Except.ok ps => Except.ok ⟨mth.name, ps, mth.hasRet, mth.http⟩
  | _ => Except.error "the first argument to an activate method must be a self reference"

/-- The macro's loop over the impl block (machine.rs lines 44-370):
methods without `#[activate]` are skipped; the first validation error
aborts the whole expansion, producing no descriptors at all. -/
def extractSchema : List MethodSyn → Except String (List OpDescriptor)
  | [] => Except.ok []
  | mth :: rest =>
    if mth.activated then
      match extractMethod mth with
      | Except.error e => Except.error e
      | Except.ok d =>
        match extractSchema rest with
        | Except.error e => Except.error e
        | Except.ok ds => Except.ok (d :: ds)
    else extractSchema rest

/-- Whether an `Except` is a success. -/
def exceptOk {E A : Type} : Except E A → Bool
  | Except.ok _ => true
  | Except.error _ => false

/-- Whether a parameter is a plain named (identifier-pattern) one. -/
def isPlainIdent : SynArg → Bool
  | SynArg.typed a =>
    match a.pat with
    | SynPat.ident _ => true
    | SynPat.other => false
  | SynArg.recv _ => false

/-- An attribute other than `with_serde` anywhere in the list fails
attribute validation. -/
theorem checkAttrs_bad :
    ∀ (attrs : List String) (j : Nat) (attr : String),
      attrs.get? j = some attr → attr ≠ "with_serde" →
      exceptOk (checkAttrs attrs) = false := by
  intro attrs
  induction attrs with
  | nil => intro j attr h; simp at h
  | cons a rest ih =>
    intro j attr hget hne
    cases j with
    | zero =>
      have ha : a = attr := by simpa using hget
      subst ha
      simp [checkAttrs, hne, exceptOk]
    | succ j =>
      by_cases ha : a = "with_serde"
      · have := ih j attr (by simpa using hget) hne
        cases h1 : checkAttrs rest with
        | ok v => rw [h1] at this; simp [exceptOk] at this
        | error e => simp [checkAttrs, ha, h1, exceptOk]
      · simp [checkAttrs, ha, exceptOk]

/-- A non-plain parameter anywhere in the remaining-parameter list fails
the loop. -/
theorem extractParams_not_plain :
    ∀ (l : List SynArg) (j : Nat) (arg : SynArg),
      l.get? j = some arg → isPlainIdent arg = false →
      exceptOk (extractParams l) = false := by
  intro l
  induction l with
  | nil => intro j arg h; simp at h
  | cons a rest ih =>
    intro j arg hget hbad
    cases a with
    | recv k => simp [extractParams, exceptOk]
    | typed ta =>
      cases hp : ta.pat with
      | other => simp [extractParams, hp, exceptOk]
      | ident n =>
        cases j with
        | zero =>
          have : SynArg.typed ta = arg := by simpa using hget
          subst this
          simp [isPlainIdent, hp] at hbad
        | succ j =>
          have hrest := ih j arg (by simpa using hget) hbad
          simp only [extractParams, hp]
          cases h1 : checkAttrs ta.attrs with
          | error e => simp [exceptOk]
          | ok hint =>
            cases h2 : extractParams rest with
            | error e => simp [exceptOk]
            | ok ps => rw [h2] at hrest; simp [exceptOk] at hrest

/-- A disallowed attribute on a plain parameter anywhere in the
remaining-parameter list fails the loop. -/
theorem extractParams_bad_attr :
    ∀ (l : List SynArg) (j : Nat) (ta : TypedArg) (n : String) (jj : Nat) (attr : String),
      l.get? j = some (SynArg.typed ta) → ta.pat = SynPat.ident n →
      ta.attrs.get? jj = some attr → attr ≠ "with_serde" →
      exceptOk (extractParams l) = false := by
  intro l
  induction l with
  | nil => intro j ta n jj attr h; simp at h
  | cons a rest ih =>
    intro j ta n jj attr hget hp hattr hne
    cases a with
    | recv k => simp [extractParams, exceptOk]
    | typed ta2 =>
      cases hp2 : ta2.pat with
      | other => simp [extractParams, hp2, exceptOk]
      | ident n2 =>
        cases j with
        | zero =>
          have : SynArg.typed ta2 = SynArg.typed ta := by simpa using hget
          have hta : ta2 = ta := by injection this
          subst hta
          have hbadattrs := checkAttrs_bad ta2.attrs jj attr hattr hne
          simp only [extractParams, hp2]
          cases h1 : checkAttrs ta2.attrs with
          | error e => simp [exceptOk]
          | ok hint => rw [h1] at hbadattrs; simp [exceptOk] at hbadattrs
        | succ j =>
          have hrest := ih j ta n jj attr (by simpa using hget) hp hattr hne
          simp only [extractParams, hp2]
          cases h1 : checkAttrs ta2.attrs with
          | error e => simp [exceptOk]
          | ok hint =>
            cases h2 : extractParams rest with
            | error e => simp [exceptOk]
            | ok ps => rw [h2] at hrest; simp [exceptOk] at hrest

/-- A failing activated method anywhere in the impl block fails the whole
expansion: no descriptor list is produced. -/
theorem extractSchema_fails :
    ∀ (ms : List MethodSyn) (k : Nat) (mth : MethodSyn),
      ms.get? k = some mth → mth.activated = true →
      exceptOk (extractMethod mth) = false →
      exceptOk (extractSchema ms) = false := by
  intro ms
  induction ms with
  | nil => intro k mth h; simp at h
  | cons m0 rest ih =>
    intro k mth hget hact hfail
    cases k with
    | zero =>
      have : m0 = mth := by simpa using hget
      subst this
      simp only [extractSchema, if_pos hact]
      cases h1 : extractMethod m0 with
      | error e => simp [exceptOk]
      | ok d => rw [h1] at hfail; simp [exceptOk] at hfail
    | succ k =>
      have hrest := ih k mth (by simpa using hget) hact hfail
      by_cases hact0 : m0.activated
      · simp only [extractSchema, if_pos hact0]
        cases h1 : extractMethod m0 with
        | error e => simp [exceptOk]
        | ok d =>
          cases h2 : extractSchema rest with
          | error e => simp [exceptOk]
          | ok ds => rw [h2] at hrest; simp [exceptOk] at hrest
      · simpa [extractSchema, if_neg hact0] using hrest

/-- C8 amended: the macro rejects, with a compile error that aborts the
whole expansion, every `#[activate]` method whose first parameter is not
a receiver (of any shape — the check is `FnArg::Receiver(_)`, not
specifically `&self`), or whose second parameter is a plain named
parameter not called `cap`/`_cap`, or any of whose remaining parameters
is not a plain named parameter, or carries a parameter attribute other
than `with_serde`; and one failing activated method makes the whole
schema extraction fail, so no dispatch code is produced for any
operation. -/
theorem schema_validation_errors (mth : MethodSyn) :
    ((∀ kk, mth.args.head? ≠ some (SynArg.recv kk)) →
      exceptOk (extractMethod mth) = false)
    ∧ (∀ kk ta n rest, mth.args = SynArg.recv kk :: SynArg.typed ta :: rest →
        ta.pat = SynPat.ident n → n ≠ "cap" → n ≠ "_cap" →
        exceptOk (extractMethod mth) = false)
    ∧ (∀ kk rest rest2 j arg, mth.args = SynArg.recv kk :: rest →
        capStep rest = Except.ok rest2 →
        rest2.get? j = some arg → isPlainIdent arg = false →
        exceptOk (extractMethod mth) = false)
    ∧ (∀ kk rest rest2 j ta n jj attr, mth.args = SynArg.recv kk :: rest →
        capStep rest = Except.ok rest2 →
        rest2.get? j = some (SynArg.typed ta) → ta.pat = SynPat.ident n →
        ta.attrs.get? jj = some attr → attr ≠ "with_serde" →
        exceptOk (extractMethod mth) = false)
    ∧ (∀ ms k, ms.get? k = some mth → mth.activated = true →
        exceptOk (extractMethod mth) = false →
        exceptOk (extractSchema ms) = false) := by
  refine ⟨?_, ?_, ?_, ?_, ?_⟩
  · intro hnorecv
    cases hargs : mth.args with
    | nil => simp [extractMethod, hargs, exceptOk]
    | cons a rest =>
      cases a with
      | recv kk => exact absurd (by rw [hargs]; rfl) (hnorecv kk)
      | typed ta => simp [extractMethod, hargs, exceptOk]
  · intro kk ta n rest hargs hp hn1 hn2
    have hcap : capStep (SynArg.typed ta :: rest) =
        Except.error "the second argument after self to an activate method must be cap" := by
      simp [capStep, hp, hn1, hn2]
    simp [extractMethod, hargs, hcap, exceptOk]
  · intro kk rest rest2 j arg hargs hcap hget hbad
    have hfail := extractParams_not_plain rest2 j arg hget hbad
    simp only [extractMethod, hargs, hcap]
    cases h1 : extractParams rest2 with
    | error e => simp [exceptOk]
    | ok ps => rw [h1] at hfail; simp [exceptOk] at hfail
  · intro kk rest rest2 j ta n jj attr hargs hcap hget hp hattr hne
    have hfail := extractParams_bad_attr rest2 j ta n jj attr hget hp hattr hne
    simp only [extractMethod, hargs, hcap]
    cases h1 : extractParams rest2 with
    | error e => simp [exceptOk]
    | ok ps => rw [h1] at hfail; simp [exceptOk] at hfail
  · intro ms k hmem hact hfail
    exact extractSchema_fails ms k mth hmem hact hfail

/-- Method `fn consume(self, cap, x: u64)` with `#[activate]`: an owned
`self` receiver, which is a receiver but not `&self`. -/
def mSelfOwned : MethodSyn :=
  { name := "consume", activated := true,
    args := [SynArg.recv RecvKind.owned, SynArg.typed ⟨SynPat.ident "cap", "Cap", []⟩,
             SynArg.typed ⟨SynPat.ident "x", "u64", []⟩],
    hasRet := false, http := none }

/-- C8 counterexample: the macro accepts a method whose first parameter
is an owned `self` receiver — not a `&self` receiver — and produces its
descriptor instead of a compile error, because the source check matches
any `FnArg::Receiver`. -/
theorem receiver_shape_cex :
    mSelfOwned.args.head? = some (SynArg.recv RecvKind.owned)
    ∧ RecvKind.owned ≠ RecvKind.refShared
    ∧ extractMethod mSelfOwned =
        Except.ok ⟨"consume", [("x", "u64", false)], false, none⟩ :=
  ⟨rfl, by decide, by rfl⟩

/-- Method with no receiver at all. -/
def mNoRecv : MethodSyn :=
  { name := "bad_first", activated := true,
    args := [SynArg.typed ⟨SynPat.ident "x", "u64", []⟩],
    hasRet := false, http := none }

/-- Method whose second parameter is a plain identifier not named cap. -/
def mBadCap : MethodSyn :=
  { name := "bad_second", activated := true,
    args := [SynArg.recv RecvKind.refShared, SynArg.typed ⟨SynPat.ident "ctx", "Cap", []⟩],
    hasRet := false, http := none }

/-- Method with a tuple-pattern third parameter. -/
def mTuplePat : MethodSyn :=
  { name := "bad_pat", activated := true,
    args := [SynArg.recv RecvKind.refShared, SynArg.typed ⟨SynPat.ident "cap", "Cap", []⟩,
             SynArg.typed ⟨SynPat.other, "u64", []⟩],
    hasRet := false, http := none }

/-- Method whose third parameter carries a disallowed attribute. -/
def mBadAttr : MethodSyn :=
  { name := "bad_attr", activated := true,
    args := [SynArg.recv RecvKind.refShared, SynArg.typed ⟨SynPat.ident "cap", "Cap", []⟩,
             SynArg.typed ⟨SynPat.ident "x", "u64", ["serde"]⟩],
    hasRet := false, http := none }

/-- Witness for the amended C8: each rejected shape fails on a concrete
method, and one failing activated method fails the whole extraction. -/
theorem schema_validation_errors_witness :
    exceptOk (extractMethod mNoRecv) = false
    ∧ exceptOk (extractMethod mBadCap) = false
    ∧ exceptOk (extractMethod mTuplePat) = false
    ∧ exceptOk (extractMethod mBadAttr) = false
    ∧ exceptOk (extractSchema [mSelfOwned, mNoRecv]) = false := by
  refine ⟨?_, ?_, ?_, ?_, ?_⟩
  · exact (schema_validation_errors mNoRecv).1 (by intro kk h; simp [mNoRecv] at h)
  · exact (schema_validation_errors mBadCap).2.1 RecvKind.refShared
      ⟨SynPat.ident "ctx", "Cap", []⟩ "ctx" [] rfl rfl (by decide) (by decide)
  · exact (schema_validation_errors mTuplePat).2.2.1 RecvKind.refShared
      [SynArg.typed ⟨SynPat.ident "cap", "Cap", []⟩, SynArg.typed ⟨SynPat.other, "u64", []⟩]
      [SynArg.typed ⟨SynPat.other, "u64", []⟩] 0 (SynArg.typed ⟨SynPat.other, "u64", []⟩)
      rfl rfl rfl rfl
  · exact (schema_validation_errors mBadAttr).2.2.2.1 RecvKind.refShared
      [SynArg.typed ⟨SynPat.ident "cap", "Cap", []⟩, SynArg.typed ⟨SynPat.ident "x", "u64", ["serde"]⟩]
      [SynArg.typed ⟨SynPat.ident "x", "u64", ["serde"]⟩] 0 ⟨SynPat.ident "x", "u64", ["serde"]⟩
      "x" 0 "serde" rfl rfl rfl rfl rfl (by decide)
  · exact (schema_validation_errors mNoRecv).2.2.2.2 [mSelfOwned, mNoRecv] 1 rfl rfl
      ((schema_validation_errors mNoRecv).1 (by intro kk h; simp [mNoRecv] at h))
